import Mathlib

/-!
Shallow embedding of the Brewken record-store layer
(`src/database/DbRecords.cpp`, copyright Matt Young 2021, GPL-3.0).

The C++ code is a declarative object-relational persistence engine: domain
objects are mapped to rows of a main table plus junction tables, driven by
runtime field descriptors.  We model the database state, the object cache
(`QHash<int, std::shared_ptr<QObject>>`) and each CRUD operation as pure
Lean functions.  SQL statement execution can fail; we model this with an
explicit environment (`ExecEnv`) that says, per statement index within one
operation, whether `QSqlQuery::exec()` returns true, and whether the final
`commit()` succeeds.  The RAII `DbTransaction` wrapper is modelled by the
convention that any operation path that does not reach `commit()` returns
the *initial* database state (rollback), and a failed commit also rolls
back (the destructor rolls back whenever the `committed` flag is false).
`Q_ASSERT` failures are modelled as a distinguished `assertFailure` result
field (debug builds abort at that point; no commit happens).
-/

set_option autoImplicit false
set_option linter.unusedVariables false

namespace Brewken

/-- Model of `QVariant`: the dynamically-typed value that moves between
object properties and database columns.  Only the shapes the record store
actually uses are modelled. -/
inductive Value where
  | null
  | int (i : Int)
  | str (s : String)
  | list (elems : List Value)

mutual

/-- Structural equality of values (`QVariant::operator==`). -/
def Value.beq : Value → Value → Bool
  | .null, .null => true
  | .int i, .int j => i == j
  | .str s, .str t => s == t
  | .list l, .list m => Value.beqList l m
  | _, _ => false

/-- Elementwise equality of value lists. -/
def Value.beqList : List Value → List Value → Bool
  | [], [] => true
  | a :: as, b :: bs => Value.beq a b && Value.beqList as bs
  | _, _ => false

end

instance : BEq Value := ⟨Value.beq⟩

/-- `QVariant::toInt()`: integers convert to themselves, everything else
the store uses converts to 0 (matching Qt's fallback). -/
def Value.toInt : Value → Int
  | .int i => i
  | _ => 0

/-- `QVariant::toString()` for the shapes used by the store. -/
def Value.toStr : Value → String
  | .str s => s
  | .int i => toString i
  | _ => ""

/-- `QVariant::toList()`: a non-list converts to the empty list. -/
def Value.toVList : Value → List Value
  | .list elems => elems
  | _ => []

/-- Generic association-list lookup, modelling `QHash::value` /
`QSqlRecord` column access: the first entry with the given key wins. -/
def qLookup {κ α : Type} [BEq κ] (h : List (κ × α)) (k : κ) : Option α :=
  (h.find? (fun p => p.1 == k)).map (fun p => p.2)

/-- Generic removal of every entry with the given key (`QHash::remove`). -/
def qRemove {κ α : Type} [BEq κ] (h : List (κ × α)) (k : κ) : List (κ × α) :=
  h.filter (fun p => !(p.1 == k))

/-- `QHash::insert`: replaces any existing entry with the same key. -/
def qInsert {κ α : Type} [BEq κ] (h : List (κ × α)) (k : κ) (v : α) : List (κ × α) :=
  (k, v) :: qRemove h k

/-- `QHash::contains`. -/
def qContains {κ α : Type} [BEq κ] (h : List (κ × α)) (k : κ) : Bool :=
  h.any (fun p => p.1 == k)

/-- The keys of an association list, in entry order. -/
def qKeys {κ α : Type} (h : List (κ × α)) : List κ :=
  h.map (fun p => p.1)

/-- Model of a `QObject` as seen by the record store: a named-property bag.
The store only ever touches objects through `property` / `setProperty`. -/
structure Obj where
  props : List (String × Value)

/-- `QObject::property(name)`: an unknown property reads as an invalid
(null) variant. -/
def Obj.property (o : Obj) (name : String) : Value :=
  (qLookup o.props name).getD .null

/-- `QObject::setProperty(name, v)`. -/
def Obj.setProperty (o : Obj) (name : String) (v : Value) : Obj :=
  ⟨qInsert o.props name v⟩

/-- Modelled from the spec: the field types of `DbRecords::FieldType`
(the declaring header is not part of the sources; §3 of the spec lists
fieldType ∈ {Bool, Int, UInt, Double, String, Date, Enum}). -/
inductive FieldType where
  | Bool
  | Int
  | UInt
  | Double
  | String
  | Date
  | Enum
  deriving BEq, DecidableEq, Repr

/-- Modelled from the spec: one enum value's DB encoding
(`DbRecords::EnumAndItsDbString`, declared in the missing header):
a native int and its database string; the mapping is bijective within a
field. -/
structure EnumAndItsDbString where
  native : Int
  string : String

/-- Modelled from the spec: one scalar column-to-property mapping
(`DbRecords::FieldSimpleDefn`, declared in the missing header): column
name, property name, field type, and the enum mapping (a nullable pointer
in C++, asserted non-null whenever used; non-enum fields leave it empty).
By convention the first entry of a store's list is the integer primary
key. -/
structure FieldSimpleDefn where
  fieldType : FieldType
  columnName : String
  propertyName : String
  enumMapping : List EnumAndItsDbString := []

/-- Modelled from the spec: one many-to-many relation stored via a
junction table (`DbRecords::FieldManyToManyDefn`, declared in the missing
header).  `orderByColumn = ""` means no explicit ordering column. -/
structure FieldManyToManyDefn where
  tableName : String
  thisPrimaryKeyColumn : String
  otherPrimaryKeyColumn : String
  propertyName : String
  assumeMaxOneEntry : Bool := false
  orderByColumn : String := ""

/-- `stringToEnum` (DbRecords.cpp lines 35-55): look up the DB string of an
enum column; on no match, log and return the fallback value 0. -/
def stringToEnum (fieldDefn : FieldSimpleDefn) (valueFromDb : Value) : Int :=
  let stringValue := valueFromDb.toStr
  match fieldDefn.enumMapping.find? (fun ii => stringValue == ii.string) with
  | none => 0
  | some m => m.native

/-- `enumToString` (DbRecords.cpp lines 61-77): look up the DB string for a
native enum value; no match is a `Q_ASSERT` failure, modelled as `none`. -/
def enumToString (fieldDefn : FieldSimpleDefn) (propertyValue : Value) : Option String :=
  let nativeValue := propertyValue.toInt
  match fieldDefn.enumMapping.find? (fun ii => nativeValue == ii.native) with
  | none => none
  | some m => some m.string

/-- One row of a junction table: `(thisKey, otherKey[, order])`.  The DB
stores `thisKey` as an integer; `otherKey` is kept as the bound variant. -/
structure JunctionRow where
  thisKey : Int
  otherKey : Value
  orderVal : Option Int := none

/-- One row of the main table: column name to stored value. -/
abbrev MainRow := List (String × Value)

/-- The relational database state visible to one record store: the main
table's rows, the junction tables (by table name) and the next id the
database will assign on insert (`lastInsertId` support). -/
structure DbState where
  mainTable : List MainRow
  junctionTables : List (String × List JunctionRow)
  nextId : Int

/-- The rows of a named junction table (a table never touched is empty). -/
def DbState.junctionRows (db : DbState) (tableName : String) : List JunctionRow :=
  (qLookup db.junctionTables tableName).getD []

/-- Replace the rows of a named junction table. -/
def DbState.setJunctionRows (db : DbState) (tableName : String)
    (rows : List JunctionRow) : DbState :=
  { db with junctionTables := qInsert db.junctionTables tableName rows }

/-- Execution environment for one operation: `execOk.getD n true` says
whether the `n`-th `QSqlQuery::exec()` inside the operation succeeds, and
`commitOk` whether the final `QSqlDatabase::commit()` succeeds. -/
structure ExecEnv where
  execOk : List Bool
  commitOk : Bool
  deriving Repr

/-- Whether statement number `n` of the current operation succeeds. -/
def execSucceeds (env : ExecEnv) (n : Nat) : Bool :=
  env.execOk.getD n true

/-- The environment in which every statement and the commit succeed. -/
def allOkEnv : ExecEnv := ⟨[], true⟩

/-- Observable events of one operation, in emission order: the
`signalObjectInserted` Qt signal and the `DbTransaction::commit()` call. -/
inductive Event where
  | objectInserted (primaryKey : Int)
  | commitCalled
  deriving BEq, DecidableEq, Repr

/-- Which `Q_ASSERT` in DbRecords.cpp fired (debug builds abort there). -/
inductive AssertReason where
  | insertOnAlreadyKeyedObject
  | enumEncodeHasNoMatch
  | insertKeyAlreadyInCache
  | loadDuplicatePrimaryKey
  | loadDuplicateBundleParameter
  | updateUnknownProperty
  deriving BEq, DecidableEq, Repr

/-- Result of one write operation: final database state (after commit or
rollback), final cache, emitted events, whether the transaction committed,
and whether a `Q_ASSERT` fired. -/
structure OpResult where
  db : DbState
  cache : List (Int × Obj)
  events : List Event
  committed : Bool
  assertFailure : Option AssertReason

/-- The list of values bound one-per-row into a junction table
(DbRecords.cpp lines 156-165): the object's property; if
`assumeMaxOneEntry`, the single value is first wrapped into a one-item
list; `QVariant::toList` then yields the rows to write. -/
def junctionBindValues (fieldManyToManyDefn : FieldManyToManyDefn) (object : Obj) : List Value :=
  let bindValues := object.property fieldManyToManyDefn.propertyName
  let bindValues :=
    if fieldManyToManyDefn.assumeMaxOneEntry then Value.list [bindValues] else bindValues
  bindValues.toVList

/-- The per-item insert loop of `insertIntoFieldManyToManyDefn`
(DbRecords.cpp lines 163-182): one INSERT per value, `itemNumber` counting
from 1 supplies the order column when one is declared; the first failed
`exec()` returns false immediately.  Returns (success, table rows after
the executed statements, next statement index). -/
def junctionInsertLoop (env : ExecEnv) (fieldManyToManyDefn : FieldManyToManyDefn)
    (primaryKey : Value) :
    List Value → Int → Nat → List JunctionRow → Bool × List JunctionRow × Nat
  | [], _, n, rows => (true, rows, n)
  | curValue :: rest, itemNumber, n, rows =>
    if execSucceeds env n then
      junctionInsertLoop env fieldManyToManyDefn primaryKey rest (itemNumber + 1) (n + 1)
        (rows ++ [{ thisKey := primaryKey.toInt, otherKey := curValue,
                    orderVal := if fieldManyToManyDefn.orderByColumn != "" then
                                  some itemNumber else none }])
    else
      (false, rows, n + 1)

/-- `insertIntoFieldManyToManyDefn` (DbRecords.cpp lines 128-185): write
one junction row per entry of the object's relation list. -/
def insertIntoFieldManyToManyDefn (env : ExecEnv) (fieldManyToManyDefn : FieldManyToManyDefn)
    (object : Obj) (primaryKey : Value) (n : Nat) (rows : List JunctionRow) :
    Bool × List JunctionRow × Nat :=
  junctionInsertLoop env fieldManyToManyDefn primaryKey
    (junctionBindValues fieldManyToManyDefn object) 1 n rows

/-- `deleteFromFieldManyToManyDefn` (DbRecords.cpp lines 187-217): one
DELETE of every junction row whose `thisKey` equals the primary key. -/
def deleteFromFieldManyToManyDefn (env : ExecEnv) (fieldManyToManyDefn : FieldManyToManyDefn)
    (primaryKey : Value) (n : Nat) (rows : List JunctionRow) :
    Bool × List JunctionRow × Nat :=
  if execSucceeds env n then
    (true, rows.filter (fun r => !(r.thisKey == primaryKey.toInt)), n + 1)
  else
    (false, rows, n + 1)

/-- The per-entity-type record store: table name and field descriptors
(`DbRecords::impl`, DbRecords.cpp lines 222-276; the cache it owns is
passed explicitly to each operation). -/
structure DbRecords where
  tableName : String
  fieldSimpleDefns : List FieldSimpleDefn
  fieldManyToManyDefns : List FieldManyToManyDefn

/-- By convention the first declared field is the primary key: its column
name (`fieldSimpleDefns[0].columnName`). -/
def DbRecords.primaryKeyColumn (store : DbRecords) : String :=
  ((store.fieldSimpleDefns.head?.map (fun fd => fd.columnName))).getD ""

/-- By convention the first declared field is the primary key: its
property name (`fieldSimpleDefns[0].propertyName`). -/
def DbRecords.primaryKeyProperty (store : DbRecords) : String :=
  ((store.fieldSimpleDefns.head?.map (fun fd => fd.propertyName))).getD ""

/-- `DbRecords::contains` (DbRecords.cpp lines 547-549): O(1) cache
lookup. -/
def DbRecords.contains (cache : List (Int × Obj)) (id : Int) : Bool :=
  qContains cache id

/-- `DbRecords::getById` (DbRecords.cpp lines 551-553): cache lookup; a
missing id yields the null shared pointer, modelled as `none`. -/
def DbRecords.getById (cache : List (Int × Obj)) (id : Int) : Option Obj :=
  qLookup cache id

/-- Bind one simple column's value from the object, string-encoding enum
fields via `enumToString`; `none` models the `Q_ASSERT` failure inside
`enumToString` for an unmapped native value. -/
def bindSimpleColumn (fieldDefn : FieldSimpleDefn) (object : Obj) : Option (String × Value) :=
  let bindValue := object.property fieldDefn.propertyName
  if fieldDefn.fieldType == FieldType.Enum then
    (enumToString fieldDefn bindValue).map (fun s => (fieldDefn.columnName, Value.str s))
  else
    some (fieldDefn.columnName, bindValue)

/-- Bind a list of simple columns in declaration order (`none` as soon as
an enum encode assertion fires). -/
def bindColumns (fieldDefns : List FieldSimpleDefn) (object : Obj) : Option (List (String × Value)) :=
  fieldDefns.mapM (fun fd => bindSimpleColumn fd object)

/-- Whether a main-table row is selected by `WHERE pkColumn = pk`. -/
def rowMatchesPk (row : MainRow) (pkColumn : String) (pk : Value) : Bool :=
  match qLookup row pkColumn with
  | some v => v == pk
  | none => false

/-- Apply an UPDATE's SET clause to one row: each bound column value
overwrites the stored one. -/
def rowSetCols (row : MainRow) (binds : List (String × Value)) : MainRow :=
  binds.foldl (fun r b => qInsert r b.1 b.2) row

/-- `DbRecords::insert` (DbRecords.cpp lines 555-660).  Differences of
note, both faithful to the source: the result of each
`insertIntoFieldManyToManyDefn` call is discarded (line 650 ignores the
returned bool, so a failed junction insert neither aborts the operation
nor prevents the commit), and the cache is mutated and the `inserted`
signal emitted before `commit()` is called, so a failed commit leaves the
cache mutated while the database rolls back. -/
def DbRecords.insert (store : DbRecords) (env : ExecEnv) (db : DbState)
    (cache : List (Int × Obj)) (object : Obj) : OpResult :=
  -- Bind all non-key simple columns (the first field, the primary key, is
  -- skipped); enum encoding can fire the Q_ASSERT inside enumToString.
  match bindColumns (store.fieldSimpleDefns.drop 1) object with
  | none =>
    { db := db, cache := cache, events := [], committed := false,
      assertFailure := some .enumEncodeHasNoMatch }
  | some binds =>
    -- Q_ASSERT(currentPrimaryKey <= 0): the object must not yet be keyed.
    let currentPrimaryKey := (object.property store.primaryKeyProperty).toInt
    if !(currentPrimaryKey ≤ 0) then
      { db := db, cache := cache, events := [], committed := false,
        assertFailure := some .insertOnAlreadyKeyedObject }
    -- Statement 0: the main-table INSERT; on failure, early return and the
    -- RAII transaction rolls back.
    else if !(execSucceeds env 0) then
      { db := db, cache := cache, events := [], committed := false, assertFailure := none }
    else
      -- lastInsertId: the database assigns the next id to the new row.
      let primaryKey : Value := .int db.nextId
      let newRow : MainRow := (store.primaryKeyColumn, primaryKey) :: binds
      let db1 : DbState :=
        { db with mainTable := db.mainTable ++ [newRow], nextId := db.nextId + 1 }
      let object1 := object.setProperty store.primaryKeyProperty primaryKey
      -- Q_ASSERT(!allObjects.contains(primaryKey)).
      if DbRecords.contains cache primaryKey.toInt then
        { db := db, cache := cache, events := [], committed := false,
          assertFailure := some .insertKeyAlreadyInCache }
      else
        let cache1 := qInsert cache primaryKey.toInt object1
        -- Junction writes; the success flag of each call is ignored.
        let stepDefn := fun (acc : DbState × Nat) (fieldManyToManyDefn : FieldManyToManyDefn) =>
          let rows := acc.1.junctionRows fieldManyToManyDefn.tableName
          let r := insertIntoFieldManyToManyDefn env fieldManyToManyDefn object1 primaryKey acc.2 rows
          (acc.1.setJunctionRows fieldManyToManyDefn.tableName r.2.1, r.2.2)
        let db2 := (store.fieldManyToManyDefns.foldl stepDefn (db1, 1)).1
        -- emit signalObjectInserted, then commit.
        let events := [Event.objectInserted primaryKey.toInt, Event.commitCalled]
        if env.commitOk then
          { db := db2, cache := cache1, events := events, committed := true,
            assertFailure := none }
        else
          { db := db, cache := cache1, events := events, committed := false,
            assertFailure := none }

/-- The junction resync loop of `DbRecords::update` (DbRecords.cpp lines
733-751): for each many-to-many field, delete all junction rows for this
key then re-insert from the object's current relation list; either helper
failing returns early. -/
def updateJunctionLoop (env : ExecEnv) (object : Obj) (primaryKey : Value) :
    List FieldManyToManyDefn → Nat → DbState → Bool × DbState × Nat
  | [], n, db => (true, db, n)
  | fieldManyToManyDefn :: rest, n, db =>
    let rows := db.junctionRows fieldManyToManyDefn.tableName
    let del := deleteFromFieldManyToManyDefn env fieldManyToManyDefn primaryKey n rows
    let db1 := db.setJunctionRows fieldManyToManyDefn.tableName del.2.1
    if !del.1 then (false, db1, del.2.2)
    else
      let ins := insertIntoFieldManyToManyDefn env fieldManyToManyDefn object primaryKey
                   del.2.2 del.2.1
      let db2 := db1.setJunctionRows fieldManyToManyDefn.tableName ins.2.1
      if !ins.1 then (false, db2, ins.2.2)
      else updateJunctionLoop env object primaryKey rest ins.2.2 db2

/-- `DbRecords::update` (DbRecords.cpp lines 662-755): one UPDATE of all
non-key simple columns keyed by primary key, then a delete-and-reinsert
resync of every junction table; any statement failure returns early and
the transaction rolls back.  The cache is never touched. -/
def DbRecords.update (store : DbRecords) (env : ExecEnv) (db : DbState)
    (cache : List (Int × Obj)) (object : Obj) : OpResult :=
  let primaryKey := object.property store.primaryKeyProperty
  -- Bind all simple columns (the pk bind feeds the WHERE clause).
  match bindColumns store.fieldSimpleDefns object with
  | none =>
    { db := db, cache := cache, events := [], committed := false,
      assertFailure := some .enumEncodeHasNoMatch }
  | some binds =>
    -- Statement 0: the main-table UPDATE (SET of all non-key columns).
    if !(execSucceeds env 0) then
      { db := db, cache := cache, events := [], committed := false, assertFailure := none }
    else
      let db1 : DbState :=
        { db with mainTable := db.mainTable.map (fun r =>
            if rowMatchesPk r store.primaryKeyColumn primaryKey then
              rowSetCols r (binds.drop 1) else r) }
      let res := updateJunctionLoop env object primaryKey store.fieldManyToManyDefns 1 db1
      if !res.1 then
        { db := db, cache := cache, events := [], committed := false, assertFailure := none }
      else if env.commitOk then
        { db := res.2.1, cache := cache, events := [Event.commitCalled], committed := true,
          assertFailure := none }
      else
        { db := db, cache := cache, events := [Event.commitCalled], committed := false,
          assertFailure := none }

/-- `DbRecords::updateProperty` (DbRecords.cpp lines 757-853): if the
property matches a simple field, one single-column UPDATE; else if it
matches a many-to-many field, delete-and-reinsert scoped to that relation;
else the final `Q_ASSERT` fires.  The cache is never touched. -/
def DbRecords.updateProperty (store : DbRecords) (env : ExecEnv) (db : DbState)
    (cache : List (Int × Obj)) (object : Obj) (propertyToUpdateInDb : String) : OpResult :=
  let primaryKey := object.property store.primaryKeyProperty
  match store.fieldSimpleDefns.find? (fun fd => fd.propertyName == propertyToUpdateInDb) with
  | some matchingFieldDefn =>
    -- Simple-property path: bind the one column (enum encode can assert).
    match bindSimpleColumn matchingFieldDefn object with
    | none =>
      { db := db, cache := cache, events := [], committed := false,
        assertFailure := some .enumEncodeHasNoMatch }
    | some bind =>
      -- Statement 0: the one-column UPDATE.
      if !(execSucceeds env 0) then
        { db := db, cache := cache, events := [], committed := false, assertFailure := none }
      else
        let db1 : DbState :=
          { db with mainTable := db.mainTable.map (fun r =>
              if rowMatchesPk r store.primaryKeyColumn primaryKey then
                rowSetCols r [bind] else r) }
        if env.commitOk then
          { db := db1, cache := cache, events := [Event.commitCalled], committed := true,
            assertFailure := none }
        else
          { db := db, cache := cache, events := [Event.commitCalled], committed := false,
            assertFailure := none }
  | none =>
    match store.fieldManyToManyDefns.find?
        (fun jt => jt.propertyName == propertyToUpdateInDb) with
    | none =>
      -- Q_ASSERT: unknown property name is a coding error.
      { db := db, cache := cache, events := [], committed := false,
        assertFailure := some .updateUnknownProperty }
    | some matchingDefn =>
      let rows := db.junctionRows matchingDefn.tableName
      let del := deleteFromFieldManyToManyDefn env matchingDefn primaryKey 0 rows
      if !del.1 then
        { db := db, cache := cache, events := [], committed := false, assertFailure := none }
      else
        let ins := insertIntoFieldManyToManyDefn env matchingDefn object primaryKey
                     del.2.2 del.2.1
        if !ins.1 then
          { db := db, cache := cache, events := [], committed := false, assertFailure := none }
        else
          let db2 := db.setJunctionRows matchingDefn.tableName ins.2.1
          if env.commitOk then
            { db := db2, cache := cache, events := [Event.commitCalled], committed := true,
              assertFailure := none }
          else
            { db := db, cache := cache, events := [Event.commitCalled], committed := false,
              assertFailure := none }

/-- `DbRecords::softDelete` (DbRecords.cpp lines 856-859): remove the id
from the cache only.  The method runs no SQL statement and opens no
transaction; the ambient database state is passed through untouched. -/
def DbRecords.softDelete (db : DbState) (cache : List (Int × Obj)) (id : Int) :
    DbState × List (Int × Obj) :=
  (db, qRemove cache id)

/-- The junction delete loop of `DbRecords::hardDelete` (DbRecords.cpp
lines 900-904): any failed delete returns early. -/
def hardDeleteJunctionLoop (env : ExecEnv) (primaryKey : Value) :
    List FieldManyToManyDefn → Nat → DbState → Bool × DbState × Nat
  | [], n, db => (true, db, n)
  | fieldManyToManyDefn :: rest, n, db =>
    let rows := db.junctionRows fieldManyToManyDefn.tableName
    let del := deleteFromFieldManyToManyDefn env fieldManyToManyDefn primaryKey n rows
    let db1 := db.setJunctionRows fieldManyToManyDefn.tableName del.2.1
    if !del.1 then (false, db1, del.2.2)
    else hardDeleteJunctionLoop env primaryKey rest del.2.2 db1

/-- `DbRecords::hardDelete` (DbRecords.cpp lines 862-913): one
transaction deleting the main-table row, then all junction rows for the
id, then removing the id from the cache, then commit. -/
def DbRecords.hardDelete (store : DbRecords) (env : ExecEnv) (db : DbState)
    (cache : List (Int × Obj)) (id : Int) : OpResult :=
  let primaryKey : Value := .int id
  -- Statement 0: DELETE FROM the main table.
  if !(execSucceeds env 0) then
    { db := db, cache := cache, events := [], committed := false, assertFailure := none }
  else
    let db1 : DbState :=
      { db with mainTable :=
          db.mainTable.filter (fun r => !(rowMatchesPk r store.primaryKeyColumn primaryKey)) }
    let res := hardDeleteJunctionLoop env primaryKey store.fieldManyToManyDefns 1 db1
    if !res.1 then
      { db := db, cache := cache, events := [], committed := false, assertFailure := none }
    else
      let cache1 := qRemove cache id
      if env.commitOk then
        { db := res.2.1, cache := cache1, events := [Event.commitCalled], committed := true,
          assertFailure := none }
      else
        { db := db, cache := cache1, events := [Event.commitCalled], committed := false,
          assertFailure := none }

/-- Result of building one row's `NamedParameterBundle`: the bundle plus
the primary key read from the first declared field, or a fired
`Q_ASSERT`. -/
inductive BundleResult where
  | ok (bundle : List (String × Value)) (primaryKey : Int)
  | assertFail (reason : AssertReason)

/-- Whether the bundle already holds a parameter of this name
(`NamedParameterBundle::contains`). -/
def bundleContains (bundle : List (String × Value)) (name : String) : Bool :=
  bundle.any (fun p => p.1 == name)

/-- The per-field loop of `DbRecords::loadAll` (DbRecords.cpp lines
419-445): read each declared column of the current row into the bundle,
decoding enum columns via `stringToEnum`; a missing/invalid column value
logs and breaks out of the loop (the partial bundle is still used); a
duplicate property name fires a `Q_ASSERT`; the first field read supplies
the primary key (initialised to -1). -/
def buildBundleLoop (row : MainRow) :
    List FieldSimpleDefn → List (String × Value) → Bool → Int → BundleResult
  | [], bundle, _, primaryKey => .ok bundle primaryKey
  | fieldDefn :: rest, bundle, readPrimaryKey, primaryKey =>
    match qLookup row fieldDefn.columnName with
    | none => .ok bundle primaryKey
    | some rawValue =>
      let fieldValue :=
        if fieldDefn.fieldType == FieldType.Enum then
          Value.int (stringToEnum fieldDefn rawValue)
        else rawValue
      if bundleContains bundle fieldDefn.propertyName then
        .assertFail .loadDuplicateBundleParameter
      else
        buildBundleLoop row rest (bundle ++ [(fieldDefn.propertyName, fieldValue)]) true
          (if readPrimaryKey then primaryKey else fieldValue.toInt)

/-- Modelled from the spec: `createNewObject` is a pure virtual of
`DbRecords` whose implementations are not among the sources; §4.3 says
the domain object is constructed directly from the named-value bundle
(constructor-based hydration, bypassing setter side effects). -/
def createNewObject (namedParameterBundle : List (String × Value)) : Obj :=
  ⟨namedParameterBundle⟩

/-- Result of one `loadAll`: the cache contents afterwards, whether the
read-only transaction committed, and whether a `Q_ASSERT` fired. -/
structure LoadResult where
  cache : List (Int × Obj)
  committed : Bool
  assertFailure : Option AssertReason

/-- The main-table row loop of `DbRecords::loadAll` (DbRecords.cpp lines
375-455): hydrate one object per row and insert it into the cache under
its primary key; a duplicate primary key fires a `Q_ASSERT`. -/
def loadAllRowLoop (fieldSimpleDefns : List FieldSimpleDefn) :
    List MainRow → List (Int × Obj) → AssertReason ⊕ List (Int × Obj)
  | [], cache => .inr cache
  | row :: rest, cache =>
    match buildBundleLoop row fieldSimpleDefns [] false (-1) with
    | .assertFail r => .inl r
    | .ok bundle primaryKey =>
      if qContains cache primaryKey then .inl .loadDuplicatePrimaryKey
      else loadAllRowLoop fieldSimpleDefns rest
             (qInsert cache primaryKey (createNewObject bundle))

/-- The sort key of the junction SELECT's ORDER BY clause: first the
`thisKey` column, then the order column when one is declared, else the
`otherKey` column (DbRecords.cpp lines 473-484). -/
def junctionSortKey (fieldManyToManyDefn : FieldManyToManyDefn) (r : JunctionRow) : Int × Int :=
  (r.thisKey,
   if fieldManyToManyDefn.orderByColumn != "" then r.orderVal.getD 0 else r.otherKey.toInt)

/-- Lexicographic strict comparison of sort keys. -/
def lexLt (a b : Int × Int) : Bool :=
  decide (a.1 < b.1) || (a.1 == b.1 && decide (a.2 < b.2))

/-- Stable insertion into a sorted row list (rows comparing equal keep
their existing relative order, a choice the SQL standard leaves open). -/
def insertRowSorted (fieldManyToManyDefn : FieldManyToManyDefn) (r : JunctionRow) :
    List JunctionRow → List JunctionRow
  | [] => [r]
  | x :: xs =>
    if lexLt (junctionSortKey fieldManyToManyDefn r) (junctionSortKey fieldManyToManyDefn x) then
      r :: x :: xs
    else x :: insertRowSorted fieldManyToManyDefn r xs

/-- The junction SELECT's result set, ordered by the ORDER BY clause
(stable insertion sort over the stored rows). -/
def orderedJunctionRows (fieldManyToManyDefn : FieldManyToManyDefn)
    (rows : List JunctionRow) : List JunctionRow :=
  rows.foldl (fun acc r => insertRowSorted fieldManyToManyDefn r acc) []

/-- `QMultiHash::insert`: a new item with an existing key is chained in
front of the previous ones, so the most recently inserted value is
returned first by `values`. -/
def multiHashInsert (h : List (Int × Value)) (k : Int) (v : Value) : List (Int × Value) :=
  (k, v) :: h

/-- `QMultiHash::values(key)`: all values for the key, from the most
recently inserted to the least recently inserted (Qt's documented
order). -/
def multiHashValues (h : List (Int × Value)) (k : Int) : List Value :=
  (h.filter (fun p => p.1 == k)).map (fun p => p.2)

/-- First-seen deduplication helper for `uniqueKeys`. -/
def dedupKeys : List Int → List Int → List Int
  | [], _ => []
  | k :: rest, seen =>
    if seen.contains k then dedupKeys rest seen else k :: dedupKeys rest (seen ++ [k])

/-- `QMultiHash::uniqueKeys()`: every key once.  Qt returns them in
unspecified hash order; we fix first-insertion order (the loop body is
applied once per key, so the final cache does not depend on this
choice). -/
def multiHashUniqueKeys (h : List (Int × Value)) : List Int :=
  dedupKeys (qKeys h) []

/-- The in-memory id-to-id multimap built from the ordered junction rows
(DbRecords.cpp lines 497-501). -/
def buildMultiHash (rows : List JunctionRow) : List (Int × Value) :=
  rows.foldl (fun h r => multiHashInsert h r.thisKey r.otherKey) []

/-- The per-key application loop of `DbRecords::loadAll` (DbRecords.cpp
lines 506-540): a key with no loaded object is logged and skipped; for a
loaded object, `assumeMaxOneEntry` applies only `values(key).first()`,
else the full `values(key)` list. -/
def applyJunctionLoop (fieldManyToManyDefn : FieldManyToManyDefn) (h : List (Int × Value)) :
    List Int → List (Int × Obj) → List (Int × Obj)
  | [], cache => cache
  | currentKey :: restKeys, cache =>
    if !(DbRecords.contains cache currentKey) then
      applyJunctionLoop fieldManyToManyDefn h restKeys cache
    else
      match DbRecords.getById cache currentKey with
      | none => applyJunctionLoop fieldManyToManyDefn h restKeys cache
      | some currentObject =>
        let otherKeys := multiHashValues h currentKey
        let newObject :=
          if fieldManyToManyDefn.assumeMaxOneEntry then
            currentObject.setProperty fieldManyToManyDefn.propertyName (otherKeys.headD .null)
          else
            currentObject.setProperty fieldManyToManyDefn.propertyName (.list otherKeys)
        applyJunctionLoop fieldManyToManyDefn h restKeys (qInsert cache currentKey newObject)

/-- The junction-table loop of `DbRecords::loadAll` (DbRecords.cpp lines
464-541): for each many-to-many field, SELECT the junction table ordered
by (thisKey, order column or otherKey) — a failed SELECT returns early —
then build the multimap and apply it to the loaded objects. -/
def loadJunctionLoop (env : ExecEnv) (db : DbState) :
    List FieldManyToManyDefn → Nat → List (Int × Obj) → Bool × List (Int × Obj) × Nat
  | [], n, cache => (true, cache, n)
  | fieldManyToManyDefn :: rest, n, cache =>
    if !(execSucceeds env n) then (false, cache, n + 1)
    else
      let orderedRows :=
        orderedJunctionRows fieldManyToManyDefn (db.junctionRows fieldManyToManyDefn.tableName)
      let thisToOtherKeys := buildMultiHash orderedRows
      let cache1 := applyJunctionLoop fieldManyToManyDefn thisToOtherKeys
                      (multiHashUniqueKeys thisToOtherKeys) cache
      loadJunctionLoop env db rest (n + 1) cache1

/-- `DbRecords::loadAll` (DbRecords.cpp lines 339-545): inside one
transaction, SELECT every main-table row and hydrate one cached object
per row, then load every junction table and apply the relations, then
commit.  A failed SELECT returns early (the transaction, which only read,
rolls back); a fired `Q_ASSERT` aborts. -/
def DbRecords.loadAll (store : DbRecords) (env : ExecEnv) (db : DbState)
    (initialCache : List (Int × Obj)) : LoadResult :=
  -- Statement 0: the main-table SELECT.
  if !(execSucceeds env 0) then
    { cache := initialCache, committed := false, assertFailure := none }
  else
    match loadAllRowLoop store.fieldSimpleDefns db.mainTable initialCache with
    | .inl r =>
      { cache := initialCache, committed := false, assertFailure := some r }
    | .inr cache1 =>
      let res := loadJunctionLoop env db store.fieldManyToManyDefns 1 cache1
      if !res.1 then
        { cache := res.2.1, committed := false, assertFailure := none }
      else
        { cache := res.2.1, committed := env.commitOk, assertFailure := none }

/-- Specification helper: the junction rows that a successful run of the
insert loop writes for a value list, numbering items from `itemNumber`. -/
def mkJunctionRows (fieldManyToManyDefn : FieldManyToManyDefn) (primaryKey : Value) :
    List Value → Int → List JunctionRow
  | [], _ => []
  | v :: rest, itemNumber =>
    { thisKey := primaryKey.toInt, otherKey := v,
      orderVal := if fieldManyToManyDefn.orderByColumn != "" then some itemNumber else none }
      :: mkJunctionRows fieldManyToManyDefn primaryKey rest (itemNumber + 1)

/-- Specification helper: the value the bundle loop stores for one field of
one row (the raw column value, enum columns decoded). -/
def decodedFieldValue (fieldDefn : FieldSimpleDefn) (row : MainRow) : Value :=
  match qLookup row fieldDefn.columnName with
  | none => .null
  | some rawValue =>
    if fieldDefn.fieldType == FieldType.Enum then Value.int (stringToEnum fieldDefn rawValue)
    else rawValue

/-- Specification helper: the bundle the field loop builds for one row when
every declared column is present. -/
def bundleMap (fieldDefns : List FieldSimpleDefn) (row : MainRow) : List (String × Value) :=
  fieldDefns.map (fun fd => (fd.propertyName, decodedFieldValue fd row))

/-- Specification helper: the primary key `loadAll` reads for a row — the
integer value of the row's first declared column (-1 when there is none,
matching the loop's initial value). -/
def rowPrimaryKey (fieldDefns : List FieldSimpleDefn) (row : MainRow) : Int :=
  match fieldDefns.head? with
  | none => -1
  | some fd => (decodedFieldValue fd row).toInt

/-- Test fixture: a store over table `recipe` with an integer primary key
`id`, one simple column `name`, and one many-to-many field `hops` stored
in junction table `recipe_hop`. -/
def exampleStore : DbRecords :=
  ⟨"recipe",
   [⟨FieldType.Int, "id", "id", []⟩, ⟨FieldType.String, "name", "name", []⟩],
   [⟨"recipe_hop", "recipe_id", "hop_id", "hops", false, ""⟩]⟩

/-- Test fixture: an unkeyed object with one hop in its relation list. -/
def exampleObject : Obj :=
  ⟨[("name", Value.str "Pale Malt"), ("hops", Value.list [Value.int 7])]⟩

/-- Test fixture: an empty database whose next assigned id is 1. -/
def exampleDb : DbState := ⟨[], [], 1⟩

/-- Test fixture: a store with an `assumeMaxOneEntry` many-to-many field
`style` stored in junction table `recipe_style`. -/
def exampleMaxOneStore : DbRecords :=
  ⟨"recipe",
   [⟨FieldType.Int, "id", "id", []⟩],
   [⟨"recipe_style", "recipe_id", "style_id", "style", true, ""⟩]⟩

/-- Test fixture: a database holding one recipe (id 1) and two junction
rows associating it with styles 10 and 20, in that load order. -/
def exampleMaxOneDb : DbState :=
  ⟨[[("id", Value.int 1)]],
   [("recipe_style", [⟨1, Value.int 10, none⟩, ⟨1, Value.int 20, none⟩])],
   2⟩

/-! ### Helper lemmas on the container models -/

theorem execSucceeds_of_nil (env : ExecEnv) (h : env.execOk = []) (n : Nat) :
    execSucceeds env n = true := by
  simp [execSucceeds, h, List.getD]

theorem qContains_qRemove {κ α : Type} [BEq κ] [LawfulBEq κ]
    (h : List (κ × α)) (k k' : κ) :
    qContains (qRemove h k) k' = (!(k' == k) && qContains h k') := by
  simp only [qContains, qRemove, List.any_filter]
  cases hk : (k' == k) with
  | true =>
    have hkk : k' = k := eq_of_beq hk
    subst hkk
    simp
  | false =>
    simp only [Bool.not_false, Bool.true_and]
    congr 1
    funext a
    cases ha : (a.1 == k') with
    | true =>
      have haa : a.1 = k' := eq_of_beq ha
      simp [haa, hk]
    | false => simp [ha]

theorem qContains_eq_false_iff {κ α : Type} [BEq κ] [LawfulBEq κ]
    (h : List (κ × α)) (k : κ) :
    qContains h k = false ↔ ∀ p ∈ h, p.1 ≠ k := by
  simp [qContains, List.any_eq_false]

theorem qRemove_eq_self {κ α : Type} [BEq κ] [LawfulBEq κ]
    (h : List (κ × α)) (k : κ) (hnc : qContains h k = false) : qRemove h k = h := by
  refine List.filter_eq_self.mpr ?_
  intro p hp
  have := (qContains_eq_false_iff h k).mp hnc p hp
  simpa using this

theorem qContains_qInsert {κ α : Type} [BEq κ] [LawfulBEq κ]
    (h : List (κ × α)) (k k' : κ) (v : α) :
    qContains (qInsert h k v) k' = (k' == k || qContains h k') := by
  have hrem := qContains_qRemove h k k'
  simp only [qContains] at hrem ⊢
  simp only [qInsert, qRemove, List.any_cons] at hrem ⊢
  rw [hrem]
  cases hk : (k' == k) with
  | true =>
    have hkk : k' = k := eq_of_beq hk
    subst hkk
    simp
  | false =>
    have hkk : (k == k') = false := by
      cases hx : (k == k') with
      | true => exact absurd (eq_of_beq hx).symm (by simpa using hk)
      | false => rfl
    simp [hkk]

theorem qLookup_qRemove_ne {κ α : Type} [BEq κ] [LawfulBEq κ]
    (h : List (κ × α)) (k k' : κ) (hne : k' ≠ k) :
    qLookup (qRemove h k) k' = qLookup h k' := by
  simp only [qLookup, qRemove, List.find?_filter]
  congr 2
  funext a
  cases ha : (a.1 == k') with
  | true =>
    have haa : a.1 = k' := eq_of_beq ha
    have : (a.1 == k) = false := by
      cases hx : (a.1 == k) with
      | true => exact absurd (haa ▸ eq_of_beq hx) hne
      | false => rfl
    simp [this, ha]
  | false => simp [ha]

theorem qLookup_qInsert_self {κ α : Type} [BEq κ] [LawfulBEq κ]
    (h : List (κ × α)) (k : κ) (v : α) :
    qLookup (qInsert h k v) k = some v := by
  simp [qInsert, qLookup, List.find?_cons]

theorem qLookup_qInsert_ne {κ α : Type} [BEq κ] [LawfulBEq κ]
    (h : List (κ × α)) (k k' : κ) (v : α) (hne : k' ≠ k) :
    qLookup (qInsert h k v) k' = qLookup h k' := by
  have hkk : (k == k') = false := by
    cases hx : (k == k') with
    | true => exact absurd (eq_of_beq hx).symm hne
    | false => rfl
  simp only [qInsert, qLookup, List.find?_cons, hkk]
  have := qLookup_qRemove_ne h k k' hne
  simpa [qLookup] using this

/-! ### C9: softDelete touches only the cache entry for the id -/

/-- C9: `softDelete(id)` removes only the cache entry for `id`: afterwards
`contains(id)` is false, the database state is passed through unchanged
(the method executes no SQL statement), and every other cache entry is
returned unchanged by `getById`. -/
theorem softDelete_removes_only_cache_entry (db : DbState) (cache : List (Int × Obj)) (id : Int) :
    (DbRecords.softDelete db cache id).1 = db ∧
    DbRecords.contains (DbRecords.softDelete db cache id).2 id = false ∧
    (∀ k : Int, k ≠ id →
      DbRecords.getById (DbRecords.softDelete db cache id).2 k = DbRecords.getById cache k) := by
  refine ⟨rfl, ?_, ?_⟩
  · have := qContains_qRemove cache id id
    simpa [DbRecords.softDelete, DbRecords.contains] using this
  · intro k hk
    have := qLookup_qRemove_ne cache id k hk
    simpa [DbRecords.softDelete, DbRecords.getById] using this

/-- Witness for C9 at a concrete cache holding ids 1 and 2. -/
theorem softDelete_removes_only_cache_entry_witness :
    (DbRecords.softDelete ⟨[], [], 5⟩ [(1, ⟨[]⟩), (2, ⟨[]⟩)] 1).1 = ⟨[], [], 5⟩ ∧
    DbRecords.contains (DbRecords.softDelete ⟨[], [], 5⟩ [(1, ⟨[]⟩), (2, ⟨[]⟩)] 1).2 1 = false ∧
    DbRecords.getById (DbRecords.softDelete ⟨[], [], 5⟩ [(1, ⟨[]⟩), (2, ⟨[]⟩)] 1).2 2
      = DbRecords.getById [(1, ⟨[]⟩), (2, ⟨[]⟩)] 2 :=
  ⟨(softDelete_removes_only_cache_entry ⟨[], [], 5⟩ [(1, ⟨[]⟩), (2, ⟨[]⟩)] 1).1,
   (softDelete_removes_only_cache_entry ⟨[], [], 5⟩ [(1, ⟨[]⟩), (2, ⟨[]⟩)] 1).2.1,
   (softDelete_removes_only_cache_entry ⟨[], [], 5⟩ [(1, ⟨[]⟩), (2, ⟨[]⟩)] 1).2.2 2 (by decide)⟩

/-! ### C10: update and updateProperty never touch the cache -/

/-- C10: for every object and property name, `update` and `updateProperty`
leave the cache map exactly as it was — no entry added, removed or
re-keyed — and `contains` / `getById` answer the same before and after,
whether the operation commits, rolls back, or hits an assertion. -/
theorem update_and_updateProperty_leave_cache_unchanged
    (store : DbRecords) (env : ExecEnv) (db : DbState) (cache : List (Int × Obj))
    (object : Obj) (propertyName : String) :
    (store.update env db cache object).cache = cache ∧
    (store.updateProperty env db cache object propertyName).cache = cache ∧
    (∀ id : Int, DbRecords.contains (store.update env db cache object).cache id
        = DbRecords.contains cache id) ∧
    (∀ id : Int, DbRecords.getById (store.update env db cache object).cache id
        = DbRecords.getById cache id) ∧
    (∀ id : Int, DbRecords.contains (store.updateProperty env db cache object propertyName).cache id
        = DbRecords.contains cache id) ∧
    (∀ id : Int, DbRecords.getById (store.updateProperty env db cache object propertyName).cache id
        = DbRecords.getById cache id) := by
  have hu : (store.update env db cache object).cache = cache := by
    unfold DbRecords.update
    dsimp only
    repeat' split
    all_goals rfl
  have hp : (store.updateProperty env db cache object propertyName).cache = cache := by
    unfold DbRecords.updateProperty
    dsimp only
    repeat' split
    all_goals rfl
  exact ⟨hu, hp, fun id => by rw [hu], fun id => by rw [hu], fun id => by rw [hp],
         fun id => by rw [hp]⟩

/-! ### C8: enum round trip -/

theorem find?_eq_of_mem_nodup {β : Type} [BEq β] [LawfulBEq β]
    (l : List EnumAndItsDbString) (f : EnumAndItsDbString → β) (e : EnumAndItsDbString)
    (he : e ∈ l) (hnd : (l.map f).Nodup) :
    l.find? (fun ii => f e == f ii) = some e := by
  induction l with
  | nil => cases he
  | cons x t ih =>
    rcases List.mem_cons.mp he with rfl | ht
    · simp [List.find?_cons]
    · have hfx : f x ∉ t.map f := (by simpa using (List.nodup_cons.mp hnd).1)
      have hfe : f e ∈ t.map f := List.mem_map_of_mem f ht
      have hx : (f e == f x) = false := by
        cases hq : (f e == f x) with
        | true => exact absurd (eq_of_beq hq ▸ hfe) hfx
        | false => rfl
      rw [List.find?_cons]
      simp only [hx]
      exact ih ht (List.nodup_cons.mp hnd).2

/-- C8: for every enum field whose mapping is bijective (no two entries
share a native value and no two share a database string), and for every
(native, string) pair in the mapping, encoding the native value with
`enumToString` yields its string and decoding that string with
`stringToEnum` returns the original native value. -/
theorem enum_round_trip (fieldDefn : FieldSimpleDefn) (e : EnumAndItsDbString)
    (he : e ∈ fieldDefn.enumMapping)
    (hnatives : (fieldDefn.enumMapping.map (fun x => x.native)).Nodup)
    (hstrings : (fieldDefn.enumMapping.map (fun x => x.string)).Nodup) :
    enumToString fieldDefn (Value.int e.native) = some e.string ∧
    stringToEnum fieldDefn (Value.str e.string) = e.native := by
  constructor
  · unfold enumToString
    have hfind := find?_eq_of_mem_nodup fieldDefn.enumMapping (fun x => x.native) e he hnatives
    simp only [Value.toInt]
    rw [hfind]
  · unfold stringToEnum
    have hfind := find?_eq_of_mem_nodup fieldDefn.enumMapping (fun x => x.string) e he hstrings
    simp only [Value.toStr]
    rw [hfind]

/-- Witness for C8 on a concrete two-entry mapping. -/
theorem enum_round_trip_witness :
    enumToString ⟨FieldType.Enum, "style", "style", [⟨0, "ale"⟩, ⟨1, "lager"⟩]⟩
        (Value.int 1) = some "lager" ∧
    stringToEnum ⟨FieldType.Enum, "style", "style", [⟨0, "ale"⟩, ⟨1, "lager"⟩]⟩
        (Value.str "lager") = 1 :=
  enum_round_trip ⟨FieldType.Enum, "style", "style", [⟨0, "ale"⟩, ⟨1, "lager"⟩]⟩
    ⟨1, "lager"⟩ (by simp) (by simp) (by simp)

/-! ### C6: tolerated data anomalies never abort a load -/

/-- C6: `loadAll` tolerates data anomalies instead of aborting: an enum
column value matching no entry of the field's mapping decodes via
`stringToEnum` to the fixed fallback 0 (the row still loads), and a
junction-table key referring to no loaded object is skipped — the
per-key loop continues with the remaining keys and the cache exactly as
they were. -/
theorem loadAll_tolerates_data_anomalies
    (fieldDefn : FieldSimpleDefn) (valueFromDb : Value)
    (hnomatch : ∀ e ∈ fieldDefn.enumMapping, e.string ≠ valueFromDb.toStr)
    (fieldManyToManyDefn : FieldManyToManyDefn) (h : List (Int × Value))
    (orphanKey : Int) (restKeys : List Int) (cache : List (Int × Obj))
    (horphan : DbRecords.contains cache orphanKey = false) :
    stringToEnum fieldDefn valueFromDb = 0 ∧
    applyJunctionLoop fieldManyToManyDefn h (orphanKey :: restKeys) cache
      = applyJunctionLoop fieldManyToManyDefn h restKeys cache := by
  constructor
  · unfold stringToEnum
    have hfind : fieldDefn.enumMapping.find? (fun ii => valueFromDb.toStr == ii.string)
        = none := by
      rw [List.find?_eq_none]
      intro e hmem
      have hne := hnomatch e hmem
      simp [beq_eq_false_iff_ne]
      exact fun hcontra => hne hcontra.symm
    dsimp only
    rw [hfind]
  · rw [applyJunctionLoop]
    simp [horphan]

/-- Witness for C6: unknown enum string "stout" and an orphaned junction
key 9 over a cache holding only key 1. -/
theorem loadAll_tolerates_data_anomalies_witness :
    stringToEnum ⟨FieldType.Enum, "style", "style", [⟨0, "ale"⟩]⟩ (Value.str "stout") = 0 ∧
    applyJunctionLoop ⟨"recipe_hop", "recipe_id", "hop_id", "hops", false, ""⟩
        [(9, Value.int 7)] [9] [(1, ⟨[]⟩)]
      = applyJunctionLoop ⟨"recipe_hop", "recipe_id", "hop_id", "hops", false, ""⟩
        [(9, Value.int 7)] [] [(1, ⟨[]⟩)] :=
  loadAll_tolerates_data_anomalies ⟨FieldType.Enum, "style", "style", [⟨0, "ale"⟩]⟩
    (Value.str "stout") (by simp [Value.toStr])
    ⟨"recipe_hop", "recipe_id", "hop_id", "hops", false, ""⟩
    [(9, Value.int 7)] 9 [] [(1, ⟨[]⟩)] (by rfl)


/-! ### C7: insert precondition — primary key unset -/

/-- C7: `insert(object)` has the precondition that the object's primary
key is unset (≤ 0).  Calling it on an already-keyed object (key > 0)
fails fast on the `Q_ASSERT(currentPrimaryKey <= 0)` (no statement runs,
nothing commits, the database is unchanged); under the precondition that
assertion never fires, whatever else happens. -/
theorem insert_precondition_primary_key_unset
    (store : DbRecords) (env : ExecEnv) (db : DbState) (cache : List (Int × Obj))
    (object : Obj) :
    ((object.property store.primaryKeyProperty).toInt > 0 →
      (bindColumns (store.fieldSimpleDefns.drop 1) object).isSome = true →
      (store.insert env db cache object).assertFailure
          = some AssertReason.insertOnAlreadyKeyedObject ∧
      (store.insert env db cache object).committed = false ∧
      (store.insert env db cache object).db = db) ∧
    ((object.property store.primaryKeyProperty).toInt ≤ 0 →
      (store.insert env db cache object).assertFailure
          ≠ some AssertReason.insertOnAlreadyKeyedObject) := by
  constructor
  · intro hkey hbind
    unfold DbRecords.insert
    cases hb : bindColumns (store.fieldSimpleDefns.drop 1) object with
    | none => rw [hb] at hbind; cases hbind
    | some binds =>
      have hnot : ¬ ((object.property store.primaryKeyProperty).toInt ≤ 0) := by omega
      simp [hnot]
  · intro hkey
    unfold DbRecords.insert
    cases hb : bindColumns (store.fieldSimpleDefns.drop 1) object with
    | none => simp
    | some binds =>
      simp only [hkey, decide_True, Bool.not_true]
      repeat' split
      all_goals simp_all

/-- Witness for C7: the first part at an already-keyed object (id 5), the
second at an unkeyed object, both over `exampleStore`. -/
theorem insert_precondition_primary_key_unset_witness :
    ((Obj.property ⟨[("id", Value.int 5)]⟩ exampleStore.primaryKeyProperty).toInt > 0 ∧
     (exampleStore.insert allOkEnv exampleDb [] ⟨[("id", Value.int 5)]⟩).assertFailure
        = some AssertReason.insertOnAlreadyKeyedObject ∧
     (exampleStore.insert allOkEnv exampleDb [] ⟨[("id", Value.int 5)]⟩).committed = false ∧
     (exampleStore.insert allOkEnv exampleDb [] ⟨[("id", Value.int 5)]⟩).db = exampleDb) ∧
    ((Obj.property exampleObject exampleStore.primaryKeyProperty).toInt ≤ 0 ∧
     (exampleStore.insert allOkEnv exampleDb [] exampleObject).assertFailure
        ≠ some AssertReason.insertOnAlreadyKeyedObject) := by
  have h1 := (insert_precondition_primary_key_unset exampleStore allOkEnv exampleDb []
      ⟨[("id", Value.int 5)]⟩).1 (by decide) (by rfl)
  have h2 := (insert_precondition_primary_key_unset exampleStore allOkEnv exampleDb []
      exampleObject).2 (by decide)
  exact ⟨⟨by decide, h1.1, h1.2.1, h1.2.2⟩, ⟨by decide, h2⟩⟩

/-! ### C4: the inserted notification precedes the commit -/

/-- C4: on a successful-statement run, `insert` emits the
`signalObjectInserted` notification carrying the database-assigned key
strictly before `DbTransaction::commit()` is called; therefore if the
commit then fails, the transaction rolls the database back while the
listeners have already been told about (and the cache already holds) the
new object. -/
theorem insert_emits_notification_before_commit
    (store : DbRecords) (env : ExecEnv) (db : DbState) (cache : List (Int × Obj))
    (object : Obj)
    (hexecs : env.execOk = [])
    (hbind : (bindColumns (store.fieldSimpleDefns.drop 1) object).isSome = true)
    (hkey : (object.property store.primaryKeyProperty).toInt ≤ 0)
    (hcache : DbRecords.contains cache db.nextId = false) :
    (store.insert env db cache object).events
        = [Event.objectInserted db.nextId, Event.commitCalled] ∧
    (env.commitOk = false →
      (store.insert env db cache object).committed = false ∧
      (store.insert env db cache object).db = db ∧
      (store.insert env db cache object).cache
        = qInsert cache db.nextId
            (object.setProperty store.primaryKeyProperty (Value.int db.nextId))) := by
  have hexec0 : execSucceeds env 0 = true := execSucceeds_of_nil env hexecs 0
  unfold DbRecords.insert
  cases hb : bindColumns (store.fieldSimpleDefns.drop 1) object with
  | none => rw [hb] at hbind; cases hbind
  | some binds =>
    have hk2 : ¬ (0 < (object.property store.primaryKeyProperty).toInt) := by omega
    have hc : DbRecords.contains cache (Value.int db.nextId).toInt = false := hcache
    have htoInt : (Value.int db.nextId).toInt = db.nextId := rfl
    cases hco : env.commitOk with
    | true => simp [hk2, hexec0, hcache, hc, hco, htoInt]
    | false => simp [hk2, hexec0, hcache, hc, hco, htoInt]

/-- Witness for C4: `exampleStore` inserting `exampleObject` into the
empty database under an environment whose statements succeed but whose
commit fails. -/
theorem insert_emits_notification_before_commit_witness :
    (exampleStore.insert ⟨[], false⟩ exampleDb [] exampleObject).events
        = [Event.objectInserted exampleDb.nextId, Event.commitCalled] ∧
    (exampleStore.insert ⟨[], false⟩ exampleDb [] exampleObject).committed = false ∧
    (exampleStore.insert ⟨[], false⟩ exampleDb [] exampleObject).db = exampleDb ∧
    (exampleStore.insert ⟨[], false⟩ exampleDb [] exampleObject).cache
      = qInsert [] exampleDb.nextId
          (exampleObject.setProperty exampleStore.primaryKeyProperty
            (Value.int exampleDb.nextId)) := by
  have h := insert_emits_notification_before_commit exampleStore ⟨[], false⟩ exampleDb []
    exampleObject (by rfl) (by rfl) (by decide) (by rfl)
  exact ⟨h.1, (h.2 (by rfl)).1, (h.2 (by rfl)).2.1, (h.2 (by rfl)).2.2⟩


/-! ### C1: all-or-nothing transactions — violated by insert's junction writes -/

/-- C1: evaluation of `insert` at the failing input.  With a store holding
one many-to-many field, an environment in which the main-table INSERT
(statement 0) succeeds but the junction-table INSERT (statement 1) fails,
and a succeeding commit, `insert` does NOT abort: line 650 of
DbRecords.cpp discards the bool returned by
`insertIntoFieldManyToManyDefn` (the same bool every other caller checks
and aborts on), so the operation emits the notification and commits,
persisting the main-table row while the junction row is missing — the
write is not all-or-nothing.  `update`, `updateProperty` and `hardDelete`
do abort early and roll back on any statement failure; only this insert
path contradicts the documented all-or-nothing contract. -/
theorem insert_commits_despite_junction_failure :
    (exampleStore.insert ⟨[true, false], true⟩ exampleDb [] exampleObject).committed = true ∧
    (exampleStore.insert ⟨[true, false], true⟩ exampleDb [] exampleObject).db.mainTable
      = [[("id", Value.int 1), ("name", Value.str "Pale Malt")]] ∧
    (exampleStore.insert ⟨[true, false], true⟩ exampleDb [] exampleObject).db.junctionRows
        "recipe_hop" = [] ∧
    (exampleStore.insert ⟨[true, false], true⟩ exampleDb [] exampleObject).events
      = [Event.objectInserted 1, Event.commitCalled] :=
  ⟨rfl, rfl, rfl, rfl⟩



/-! ### C5: assumeMaxOneEntry truncation -/

theorem qContains_of_qLookup {κ α : Type} [BEq κ] [LawfulBEq κ]
    (h : List (κ × α)) (k : κ) (v : α)
    (hl : qLookup h k = some v) : qContains h k = true := by
  unfold qLookup at hl
  cases hf : h.find? (fun p => p.1 == k) with
  | none => rw [hf] at hl; cases hl
  | some p =>
    have hpred := List.find?_some hf
    have hmem := List.mem_of_find?_eq_some hf
    simp only [qContains, List.any_eq_true]
    exact ⟨p, hmem, hpred⟩

theorem buildMultiHash_eq (rows : List JunctionRow) :
    buildMultiHash rows = (rows.map (fun r => (r.thisKey, r.otherKey))).reverse := by
  have aux : ∀ (l : List JunctionRow) (acc : List (Int × Value)),
      l.foldl (fun h r => multiHashInsert h r.thisKey r.otherKey) acc
        = (l.map (fun r => (r.thisKey, r.otherKey))).reverse ++ acc := by
    intro l
    induction l with
    | nil => intro acc; simp
    | cons r t ih =>
      intro acc
      rw [List.foldl_cons, ih]
      simp [multiHashInsert]
  simpa using aux rows []

theorem multiHashValues_buildMultiHash (rows : List JunctionRow) (k : Int) :
    multiHashValues (buildMultiHash rows) k
      = ((rows.filter (fun r => r.thisKey == k)).map (fun r => r.otherKey)).reverse := by
  rw [buildMultiHash_eq]
  simp only [multiHashValues, List.filter_reverse, List.map_reverse]
  congr 1
  rw [List.filter_map]
  simp only [List.map_map]
  rfl

/-- C5 counterexample to first-wins: database `exampleMaxOneDb` holds two
junction rows for recipe 1, styles 10 then 20 in load order; reloading
with the `assumeMaxOneEntry` store associates style 20 — the LAST in load
order — not the first (10) as the claim states. -/
theorem assumeMaxOneEntry_first_wins_counterexample :
    (DbRecords.getById (exampleMaxOneStore.loadAll allOkEnv exampleMaxOneDb []).cache 1).map
        (fun o => o.property "style") = some (Value.int 20) ∧
    ¬ (Value.int 20 = Value.int 10) := by
  refine ⟨rfl, ?_⟩
  intro hcontra
  have h10 : (20 : Int) = 10 := Value.int.inj hcontra
  omega

/-- C5 amended: for an `assumeMaxOneEntry` many-to-many field, on
insert/update the single property value is wrapped into a one-element list
so exactly one junction row is written; on `loadAll` only
`values(key).first()` of the multimap is applied, and since `QMultiHash`
returns values most-recently-inserted first while the ordered SELECT rows
are inserted in load order, the single value applied is the LAST junction
row in load order — a last-wins truncation determined by the load
ordering. -/
theorem assumeMaxOneEntry_last_wins
    (fieldManyToManyDefn : FieldManyToManyDefn)
    (hmax : fieldManyToManyDefn.assumeMaxOneEntry = true)
    (env : ExecEnv) (henv : env.execOk = [])
    (object : Obj) (primaryKey : Value) (n : Nat) (rows : List JunctionRow)
    (loadRows : List JunctionRow) (k : Int) (cache : List (Int × Obj)) (o : Obj)
    (hobj : DbRecords.getById cache k = some o) :
    insertIntoFieldManyToManyDefn env fieldManyToManyDefn object primaryKey n rows
      = (true,
         rows ++ [{ thisKey := primaryKey.toInt,
                    otherKey := object.property fieldManyToManyDefn.propertyName,
                    orderVal := if fieldManyToManyDefn.orderByColumn != "" then some 1
                                else none }],
         n + 1) ∧
    applyJunctionLoop fieldManyToManyDefn (buildMultiHash loadRows) [k] cache
      = qInsert cache k
          (o.setProperty fieldManyToManyDefn.propertyName
            (((loadRows.filter (fun r => r.thisKey == k)).map
                (fun r => r.otherKey)).getLastD Value.null)) := by
  constructor
  · have hexec : execSucceeds env n = true := execSucceeds_of_nil env henv n
    simp [insertIntoFieldManyToManyDefn, junctionBindValues, hmax, Value.toVList,
          junctionInsertLoop, hexec]
  · have hcont : DbRecords.contains cache k = true :=
      qContains_of_qLookup cache k o hobj
    rw [applyJunctionLoop]
    simp only [hcont, Bool.not_true, Bool.false_eq_true, if_false, hobj]
    rw [applyJunctionLoop]
    rw [multiHashValues_buildMultiHash]
    simp [hmax]

/-- Witness for C5's amended theorem: one wrapped write for a store whose
`style` property is 7, and a last-wins load over rows (1,10),(1,20). -/
theorem assumeMaxOneEntry_last_wins_witness :
    insertIntoFieldManyToManyDefn allOkEnv ⟨"recipe_style", "recipe_id", "style_id", "style", true, ""⟩
        ⟨[("style", Value.int 7)]⟩ (Value.int 1) 1 []
      = (true, [{ thisKey := 1, otherKey := Value.int 7, orderVal := none }], 2) ∧
    applyJunctionLoop ⟨"recipe_style", "recipe_id", "style_id", "style", true, ""⟩
        (buildMultiHash [⟨1, Value.int 10, none⟩, ⟨1, Value.int 20, none⟩]) [1] [(1, ⟨[]⟩)]
      = qInsert [(1, ⟨[]⟩)] 1
          (Obj.setProperty ⟨[]⟩ "style"
            ((([⟨1, Value.int 10, none⟩, ⟨1, Value.int 20, none⟩].filter
                (fun (r : JunctionRow) => r.thisKey == 1)).map
                (fun (r : JunctionRow) => r.otherKey)).getLastD Value.null)) := by
  have h := assumeMaxOneEntry_last_wins
    ⟨"recipe_style", "recipe_id", "style_id", "style", true, ""⟩ (by rfl)
    allOkEnv (by rfl) ⟨[("style", Value.int 7)]⟩ (Value.int 1) 1 []
    [⟨1, Value.int 10, none⟩, ⟨1, Value.int 20, none⟩] 1 [(1, ⟨[]⟩)] ⟨[]⟩ (by rfl)
  exact ⟨h.1, h.2⟩


/-! ### C3: update's delete-then-reinsert junction resync -/

theorem junctionRows_set_self (db : DbState) (t : String) (rows : List JunctionRow) :
    (db.setJunctionRows t rows).junctionRows t = rows := by
  simp [DbState.junctionRows, DbState.setJunctionRows, qLookup_qInsert_self]

theorem junctionRows_set_ne (db : DbState) (t t' : String) (rows : List JunctionRow)
    (hne : t' ≠ t) :
    (db.setJunctionRows t rows).junctionRows t' = db.junctionRows t' := by
  simp [DbState.junctionRows, DbState.setJunctionRows, qLookup_qInsert_ne _ _ _ _ hne]

theorem junctionInsertLoop_allOk (env : ExecEnv) (henv : env.execOk = [])
    (fieldManyToManyDefn : FieldManyToManyDefn) (primaryKey : Value) :
    ∀ (vals : List Value) (itemNumber : Int) (n : Nat) (rows : List JunctionRow),
    junctionInsertLoop env fieldManyToManyDefn primaryKey vals itemNumber n rows
      = (true, rows ++ mkJunctionRows fieldManyToManyDefn primaryKey vals itemNumber,
         n + vals.length) := by
  intro vals
  induction vals with
  | nil =>
    intro itemNumber n rows
    simp [junctionInsertLoop, mkJunctionRows]
  | cons v rest ih =>
    intro itemNumber n rows
    rw [junctionInsertLoop]
    simp only [execSucceeds_of_nil env henv, if_true]
    rw [ih]
    simp only [mkJunctionRows, Prod.mk.injEq, List.length_cons]
    refine ⟨trivial, ?_, ?_⟩
    · simp [List.append_assoc]
    · omega

theorem updateJunctionLoop_allOk (env : ExecEnv) (henv : env.execOk = [])
    (object : Obj) (primaryKey : Value) :
    ∀ (defns : List FieldManyToManyDefn) (n : Nat) (db : DbState),
    (defns.map (fun d => d.tableName)).Nodup →
    (updateJunctionLoop env object primaryKey defns n db).1 = true ∧
    (∀ t : String, (∀ d ∈ defns, d.tableName ≠ t) →
      (updateJunctionLoop env object primaryKey defns n db).2.1.junctionRows t
        = db.junctionRows t) ∧
    (∀ d ∈ defns,
      (updateJunctionLoop env object primaryKey defns n db).2.1.junctionRows d.tableName
        = ((db.junctionRows d.tableName).filter
             (fun r => !(r.thisKey == primaryKey.toInt)))
          ++ mkJunctionRows d primaryKey (junctionBindValues d object) 1) := by
  intro defns
  induction defns with
  | nil =>
    intro n db hnd
    exact ⟨rfl, fun t ht => rfl, fun d hd => absurd hd (List.not_mem_nil d)⟩
  | cons defn rest ih =>
    intro n db hnd
    have hnd' : (rest.map (fun d => d.tableName)).Nodup := (List.nodup_cons.mp hnd).2
    have hnotmem : defn.tableName ∉ rest.map (fun d => d.tableName) :=
      (List.nodup_cons.mp hnd).1
    have hdel : deleteFromFieldManyToManyDefn env defn primaryKey n
        (db.junctionRows defn.tableName)
        = (true,
           (db.junctionRows defn.tableName).filter
             (fun r => !(r.thisKey == primaryKey.toInt)),
           n + 1) := by
      simp [deleteFromFieldManyToManyDefn, execSucceeds_of_nil env henv]
    have hins : insertIntoFieldManyToManyDefn env defn object primaryKey (n + 1)
        ((db.junctionRows defn.tableName).filter
          (fun r => !(r.thisKey == primaryKey.toInt)))
        = (true,
           ((db.junctionRows defn.tableName).filter
             (fun r => !(r.thisKey == primaryKey.toInt)))
             ++ mkJunctionRows defn primaryKey (junctionBindValues defn object) 1,
           (n + 1) + (junctionBindValues defn object).length) := by
      rw [insertIntoFieldManyToManyDefn, junctionInsertLoop_allOk env henv]
    have hstep : updateJunctionLoop env object primaryKey (defn :: rest) n db
        = updateJunctionLoop env object primaryKey rest
            ((n + 1) + (junctionBindValues defn object).length)
            ((db.setJunctionRows defn.tableName
               ((db.junctionRows defn.tableName).filter
                 (fun r => !(r.thisKey == primaryKey.toInt)))).setJunctionRows
              defn.tableName
              (((db.junctionRows defn.tableName).filter
                 (fun r => !(r.thisKey == primaryKey.toInt)))
                ++ mkJunctionRows defn primaryKey (junctionBindValues defn object) 1)) := by
      rw [updateJunctionLoop]
      dsimp only
      rw [hdel]
      dsimp only
      rw [hins]
      simp only [Bool.not_true, Bool.false_eq_true, if_false]
    rw [hstep]
    obtain ⟨ih1, ih2, ih3⟩ :=
      ih ((n + 1) + (junctionBindValues defn object).length)
        ((db.setJunctionRows defn.tableName
           ((db.junctionRows defn.tableName).filter
             (fun r => !(r.thisKey == primaryKey.toInt)))).setJunctionRows
          defn.tableName
          (((db.junctionRows defn.tableName).filter
             (fun r => !(r.thisKey == primaryKey.toInt)))
            ++ mkJunctionRows defn primaryKey (junctionBindValues defn object) 1)) hnd'
    refine ⟨ih1, ?_, ?_⟩
    · intro t ht
      have htdefn : defn.tableName ≠ t := ht defn (List.mem_cons_self defn rest)
      rw [ih2 t (fun d hd => ht d (List.mem_cons_of_mem defn hd))]
      rw [junctionRows_set_ne _ _ _ _ (Ne.symm htdefn)]
      rw [junctionRows_set_ne _ _ _ _ (Ne.symm htdefn)]
    · intro d hd
      rcases List.mem_cons.mp hd with rfl | hdrest
      · have hrest : ∀ d' ∈ rest, d'.tableName ≠ d.tableName := by
          intro d' hd' hcontra
          exact hnotmem (hcontra ▸ List.mem_map_of_mem (fun x => x.tableName) hd')
        rw [ih2 d.tableName hrest]
        rw [junctionRows_set_self]
      · have hne : d.tableName ≠ defn.tableName := by
          intro hcontra
          exact hnotmem (hcontra ▸ List.mem_map_of_mem (fun x => x.tableName) hdrest)
        rw [ih3 d hdrest]
        rw [junctionRows_set_ne _ _ _ _ hne]
        rw [junctionRows_set_ne _ _ _ _ hne]

theorem filter_mkJunctionRows (fieldManyToManyDefn : FieldManyToManyDefn)
    (primaryKey : Value) :
    ∀ (vals : List Value) (itemNumber : Int),
    (mkJunctionRows fieldManyToManyDefn primaryKey vals itemNumber).filter
        (fun r => r.thisKey == primaryKey.toInt)
      = mkJunctionRows fieldManyToManyDefn primaryKey vals itemNumber := by
  intro vals
  induction vals with
  | nil => intro itemNumber; rfl
  | cons v rest ih => intro itemNumber; simp [mkJunctionRows, ih]

/-- C3: for every object and every many-to-many field of a store whose
junction tables are distinct, `update(object)` first deletes every
junction row whose `thisKey` equals the object's key and then re-inserts
one row per entry of the object's current relation list; consequently the
junction rows carrying the object's key after commit are exactly the rows
of the current relation list — updating a relation list [a,b,c] to [x]
leaves exactly the row for x. -/
theorem update_resyncs_junction_rows
    (store : DbRecords) (env : ExecEnv) (db : DbState) (cache : List (Int × Obj))
    (object : Obj)
    (henv : env.execOk = []) (hcommit : env.commitOk = true)
    (hbind : (bindColumns store.fieldSimpleDefns object).isSome = true)
    (htables : (store.fieldManyToManyDefns.map (fun d => d.tableName)).Nodup)
    (fieldManyToManyDefn : FieldManyToManyDefn)
    (hdefn : fieldManyToManyDefn ∈ store.fieldManyToManyDefns) :
    (store.update env db cache object).committed = true ∧
    (store.update env db cache object).db.junctionRows fieldManyToManyDefn.tableName
      = ((db.junctionRows fieldManyToManyDefn.tableName).filter
           (fun r => !(r.thisKey == (object.property store.primaryKeyProperty).toInt)))
        ++ mkJunctionRows fieldManyToManyDefn (object.property store.primaryKeyProperty)
             (junctionBindValues fieldManyToManyDefn object) 1 ∧
    ((store.update env db cache object).db.junctionRows
        fieldManyToManyDefn.tableName).filter
        (fun r => r.thisKey == (object.property store.primaryKeyProperty).toInt)
      = mkJunctionRows fieldManyToManyDefn (object.property store.primaryKeyProperty)
          (junctionBindValues fieldManyToManyDefn object) 1 := by
  unfold DbRecords.update
  cases hb : bindColumns store.fieldSimpleDefns object with
  | none => rw [hb] at hbind; cases hbind
  | some binds =>
    have hexec0 : execSucceeds env 0 = true := execSucceeds_of_nil env henv 0
    simp only [hexec0, Bool.not_true, Bool.false_eq_true, if_false]
    obtain ⟨hres1, hres2, hres3⟩ :=
      updateJunctionLoop_allOk env henv object (object.property store.primaryKeyProperty)
        store.fieldManyToManyDefns 1
        { db with mainTable := db.mainTable.map (fun r =>
            if rowMatchesPk r store.primaryKeyColumn
                (object.property store.primaryKeyProperty) then
              rowSetCols r (binds.drop 1) else r) }
        htables
    have hjrows := hres3 fieldManyToManyDefn hdefn
    rw [hres1]
    simp only [Bool.not_true, Bool.false_eq_true, if_false, hcommit, if_true]
    refine ⟨trivial, hjrows, ?_⟩
    rw [hjrows]
    rw [List.filter_append]
    rw [filter_mkJunctionRows]
    simp [List.filter_filter]

/-- Witness for C3: `exampleStore`'s object 1 has its hops relation list
resynced from rows [4,5,6] to [7]; the foreign row for key 2 survives and
exactly one row for key 1 remains. -/
theorem update_resyncs_junction_rows_witness :
    (exampleStore.update allOkEnv
        ⟨[[("id", Value.int 1), ("name", Value.str "x")]],
         [("recipe_hop",
           [⟨1, Value.int 4, none⟩, ⟨1, Value.int 5, none⟩, ⟨1, Value.int 6, none⟩,
            ⟨2, Value.int 9, none⟩])], 3⟩
        [] ⟨[("id", Value.int 1), ("name", Value.str "x"), ("hops", Value.list [Value.int 7])]⟩).committed
      = true ∧
    ((exampleStore.update allOkEnv
        ⟨[[("id", Value.int 1), ("name", Value.str "x")]],
         [("recipe_hop",
           [⟨1, Value.int 4, none⟩, ⟨1, Value.int 5, none⟩, ⟨1, Value.int 6, none⟩,
            ⟨2, Value.int 9, none⟩])], 3⟩
        [] ⟨[("id", Value.int 1), ("name", Value.str "x"), ("hops", Value.list [Value.int 7])]⟩).db.junctionRows
        "recipe_hop").filter (fun r => r.thisKey == 1)
      = [⟨1, Value.int 7, none⟩] := by
  have h := update_resyncs_junction_rows exampleStore allOkEnv
    ⟨[[("id", Value.int 1), ("name", Value.str "x")]],
     [("recipe_hop",
       [⟨1, Value.int 4, none⟩, ⟨1, Value.int 5, none⟩, ⟨1, Value.int 6, none⟩,
        ⟨2, Value.int 9, none⟩])], 3⟩
    [] ⟨[("id", Value.int 1), ("name", Value.str "x"), ("hops", Value.list [Value.int 7])]⟩
    (by rfl) (by rfl) (by rfl) (by decide)
    ⟨"recipe_hop", "recipe_id", "hop_id", "hops", false, ""⟩ (by simp [exampleStore])
  refine ⟨h.1, ?_⟩
  exact h.2.2


/-! ### C2: loadAll — one cache entry per row, keyed by the primary key -/

theorem bundleContains_append (bundle : List (String × Value)) (x : String × Value)
    (name : String) :
    bundleContains (bundle ++ [x]) name = (bundleContains bundle name || (x.1 == name)) := by
  simp [bundleContains, List.any_append]

theorem buildBundleLoop_readPk (row : MainRow) :
    ∀ (fds : List FieldSimpleDefn) (bundle : List (String × Value)) (pk : Int),
    (fds.map (fun fd => fd.propertyName)).Nodup →
    (∀ fd ∈ fds, (qLookup row fd.columnName).isSome = true) →
    (∀ fd ∈ fds, bundleContains bundle fd.propertyName = false) →
    buildBundleLoop row fds bundle true pk
      = .ok (bundle ++ bundleMap fds row) pk := by
  intro fds
  induction fds with
  | nil =>
    intro bundle pk _ _ _
    simp [buildBundleLoop, bundleMap]
  | cons fd rest ih =>
    intro bundle pk hnd hcols hdisj
    rw [buildBundleLoop]
    cases hl : qLookup row fd.columnName with
    | none =>
      exact absurd (hl ▸ hcols fd (List.mem_cons_self fd rest)) (by simp)
    | some rawValue =>
      have hbc : bundleContains bundle fd.propertyName = false :=
        hdisj fd (List.mem_cons_self fd rest)
      simp only [hbc, Bool.false_eq_true, if_false, if_true]
      have hfdnotmem : fd.propertyName ∉ rest.map (fun x => x.propertyName) :=
        (List.nodup_cons.mp hnd).1
      rw [ih (bundle ++ [(fd.propertyName,
            if fd.fieldType == FieldType.Enum then Value.int (stringToEnum fd rawValue)
            else rawValue)]) pk
          (List.nodup_cons.mp hnd).2
          (fun fd' hfd' => hcols fd' (List.mem_cons_of_mem fd hfd'))
          (fun fd' hfd' => by
            rw [bundleContains_append]
            have h1 : bundleContains bundle fd'.propertyName = false :=
              hdisj fd' (List.mem_cons_of_mem fd hfd')
            have h2 : (fd.propertyName == fd'.propertyName) = false := by
              cases hq : (fd.propertyName == fd'.propertyName) with
              | true =>
                exact absurd
                  (eq_of_beq hq ▸ List.mem_map_of_mem (fun x => x.propertyName) hfd')
                  hfdnotmem
              | false => rfl
            simp [h1, h2])]
      have hdec : decodedFieldValue fd row
          = (if fd.fieldType == FieldType.Enum then Value.int (stringToEnum fd rawValue)
             else rawValue) := by
        simp [decodedFieldValue, hl]
      simp [bundleMap, hdec]

theorem buildBundleLoop_spec (row : MainRow) (fds : List FieldSimpleDefn)
    (hnd : (fds.map (fun fd => fd.propertyName)).Nodup)
    (hcols : ∀ fd ∈ fds, (qLookup row fd.columnName).isSome = true) :
    buildBundleLoop row fds [] false (-1)
      = .ok (bundleMap fds row) (rowPrimaryKey fds row) := by
  cases fds with
  | nil => rfl
  | cons fd rest =>
    rw [buildBundleLoop]
    cases hl : qLookup row fd.columnName with
    | none =>
      exact absurd (hl ▸ hcols fd (List.mem_cons_self fd rest)) (by simp)
    | some rawValue =>
      have hbc : bundleContains [] fd.propertyName = false := rfl
      simp only [hbc, Bool.false_eq_true, if_false]
      have hfdnotmem : fd.propertyName ∉ rest.map (fun x => x.propertyName) :=
        (List.nodup_cons.mp hnd).1
      rw [buildBundleLoop_readPk row rest
          ([] ++ [(fd.propertyName,
            if fd.fieldType == FieldType.Enum then Value.int (stringToEnum fd rawValue)
            else rawValue)])
          (if fd.fieldType == FieldType.Enum then Value.int (stringToEnum fd rawValue)
            else rawValue).toInt
          (List.nodup_cons.mp hnd).2
          (fun fd' hfd' => hcols fd' (List.mem_cons_of_mem fd hfd'))
          (fun fd' hfd' => by
            rw [bundleContains_append]
            have h2 : (fd.propertyName == fd'.propertyName) = false := by
              cases hq : (fd.propertyName == fd'.propertyName) with
              | true =>
                exact absurd
                  (eq_of_beq hq ▸ List.mem_map_of_mem (fun x => x.propertyName) hfd')
                  hfdnotmem
              | false => rfl
            simp [bundleContains, h2])]
      have hdec : decodedFieldValue fd row
          = (if fd.fieldType == FieldType.Enum then Value.int (stringToEnum fd rawValue)
             else rawValue) := by
        simp [decodedFieldValue, hl]
      simp [bundleMap, rowPrimaryKey, hdec]

theorem loadAllRowLoop_ok (fds : List FieldSimpleDefn)
    (hnd : (fds.map (fun fd => fd.propertyName)).Nodup) :
    ∀ (rows : List MainRow) (cache : List (Int × Obj)),
    (∀ row ∈ rows, ∀ fd ∈ fds, (qLookup row fd.columnName).isSome = true) →
    (∀ row ∈ rows, qContains cache (rowPrimaryKey fds row) = false) →
    ((rows.map (rowPrimaryKey fds)).Nodup) →
    loadAllRowLoop fds rows cache
      = .inr ((rows.map (fun r =>
          (rowPrimaryKey fds r, createNewObject (bundleMap fds r)))).reverse ++ cache) := by
  intro rows
  induction rows with
  | nil =>
    intro cache _ _ _
    simp [loadAllRowLoop]
  | cons row rest ih =>
    intro cache hcols hfree hnodup
    rw [loadAllRowLoop,
        buildBundleLoop_spec row fds hnd (hcols row (List.mem_cons_self row rest))]
    have hfree0 : qContains cache (rowPrimaryKey fds row) = false :=
      hfree row (List.mem_cons_self row rest)
    simp only [hfree0, Bool.false_eq_true, if_false]
    have hrm : qRemove cache (rowPrimaryKey fds row) = cache := qRemove_eq_self _ _ hfree0
    have hpknotmem : rowPrimaryKey fds row ∉ rest.map (rowPrimaryKey fds) :=
      (List.nodup_cons.mp hnodup).1
    have hstep : qInsert cache (rowPrimaryKey fds row) (createNewObject (bundleMap fds row))
        = (rowPrimaryKey fds row, createNewObject (bundleMap fds row)) :: cache := by
      rw [qInsert, hrm]
    rw [hstep]
    rw [ih ((rowPrimaryKey fds row, createNewObject (bundleMap fds row)) :: cache)
        (fun r hr fd hf => hcols r (List.mem_cons_of_mem row hr) fd hf)
        (fun r hr => by
          simp only [qContains, List.any_cons]
          have h1 : (rowPrimaryKey fds row == rowPrimaryKey fds r) = false := by
            cases hq : (rowPrimaryKey fds row == rowPrimaryKey fds r) with
            | true =>
              exact absurd (eq_of_beq hq ▸ List.mem_map_of_mem (rowPrimaryKey fds) hr)
                hpknotmem
            | false => rfl
          have h2 : qContains cache (rowPrimaryKey fds r) = false :=
            hfree r (List.mem_cons_of_mem row hr)
          simp only [qContains] at h2
          rw [h1, h2]
          rfl)
        (List.nodup_cons.mp hnodup).2]
    simp [List.reverse_cons, List.append_assoc]

theorem loadAllRowLoop_dup_in_cache (fds : List FieldSimpleDefn)
    (hnd : (fds.map (fun fd => fd.propertyName)).Nodup) :
    ∀ (rows : List MainRow) (cache : List (Int × Obj)),
    (∀ row ∈ rows, ∀ fd ∈ fds, (qLookup row fd.columnName).isSome = true) →
    (∃ row ∈ rows, qContains cache (rowPrimaryKey fds row) = true) →
    loadAllRowLoop fds rows cache = .inl .loadDuplicatePrimaryKey := by
  intro rows
  induction rows with
  | nil =>
    intro cache _ hex
    rcases hex with ⟨r, hr, _⟩
    cases hr
  | cons row rest ih =>
    intro cache hcols hex
    rw [loadAllRowLoop,
        buildBundleLoop_spec row fds hnd (hcols row (List.mem_cons_self row rest))]
    cases hc : qContains cache (rowPrimaryKey fds row) with
    | true => simp [hc]
    | false =>
      simp only [hc, Bool.false_eq_true, if_false]
      rcases hex with ⟨r', hr', hcr'⟩
      rcases List.mem_cons.mp hr' with rfl | hrest
      · rw [hc] at hcr'; cases hcr'
      · apply ih
        · exact fun r h fd hf => hcols r (List.mem_cons_of_mem row h) fd hf
        · refine ⟨r', hrest, ?_⟩
          rw [qContains_qInsert]
          simp [hcr']

theorem loadAllRowLoop_dup (fds : List FieldSimpleDefn)
    (hnd : (fds.map (fun fd => fd.propertyName)).Nodup) :
    ∀ (rows : List MainRow) (cache : List (Int × Obj)),
    (∀ row ∈ rows, ∀ fd ∈ fds, (qLookup row fd.columnName).isSome = true) →
    (∀ row ∈ rows, qContains cache (rowPrimaryKey fds row) = false) →
    ¬ ((rows.map (rowPrimaryKey fds)).Nodup) →
    loadAllRowLoop fds rows cache = .inl .loadDuplicatePrimaryKey := by
  intro rows
  induction rows with
  | nil =>
    intro cache _ _ hnodup
    exact absurd List.nodup_nil hnodup
  | cons row rest ih =>
    intro cache hcols hfree hnodup
    rw [loadAllRowLoop,
        buildBundleLoop_spec row fds hnd (hcols row (List.mem_cons_self row rest))]
    have hc : qContains cache (rowPrimaryKey fds row) = false :=
      hfree row (List.mem_cons_self row rest)
    simp only [hc, Bool.false_eq_true, if_false]
    by_cases hmem : rowPrimaryKey fds row ∈ rest.map (rowPrimaryKey fds)
    · rcases List.mem_map.mp hmem with ⟨r', hr', hpk⟩
      apply loadAllRowLoop_dup_in_cache fds hnd
      · exact fun r h fd hf => hcols r (List.mem_cons_of_mem row h) fd hf
      · refine ⟨r', hr', ?_⟩
        rw [qContains_qInsert]
        simp [hpk]
    · have hnodup' : ¬ (rest.map (rowPrimaryKey fds)).Nodup := by
        intro hcontra
        exact hnodup (List.nodup_cons.mpr ⟨hmem, hcontra⟩)
      apply ih
      · exact fun r h fd hf => hcols r (List.mem_cons_of_mem row h) fd hf
      · intro r' hr'
        rw [qContains_qInsert]
        have h1 : (rowPrimaryKey fds r' == rowPrimaryKey fds row) = false := by
          cases hq : (rowPrimaryKey fds r' == rowPrimaryKey fds row) with
          | true =>
            exact absurd (eq_of_beq hq ▸ List.mem_map_of_mem (rowPrimaryKey fds) hr') hmem
          | false => rfl
        rw [h1, hfree r' (List.mem_cons_of_mem row hr')]
        rfl
      · exact hnodup'

theorem qContains_iff_mem_qKeys {κ α : Type} [BEq κ] [LawfulBEq κ]
    (h : List (κ × α)) (k : κ) : qContains h k = true ↔ k ∈ qKeys h := by
  simp [qContains, qKeys, List.any_eq_true, List.mem_map, beq_iff_eq]

theorem length_qRemove_of_contains {κ α : Type} [BEq κ] [LawfulBEq κ] :
    ∀ (h : List (κ × α)) (k : κ),
    (qKeys h).Nodup → qContains h k = true → (qRemove h k).length + 1 = h.length := by
  intro h
  induction h with
  | nil => intro k _ hc; cases hc
  | cons p t ih =>
    intro k hnd hc
    have hnd' : (p.1 :: qKeys t).Nodup := by simpa [qKeys] using hnd
    cases hp : (p.1 == k) with
    | true =>
      have hpk : p.1 = k := eq_of_beq hp
      have hnot : qContains t k = false := by
        cases hq : qContains t k with
        | true =>
          have hmem := (qContains_iff_mem_qKeys t k).mp hq
          exact absurd (hpk ▸ hmem) (List.nodup_cons.mp hnd').1
        | false => rfl
      have hrt : qRemove t k = t := qRemove_eq_self t k hnot
      show (List.filter (fun q => !(q.1 == k)) (p :: t)).length + 1 = (p :: t).length
      rw [List.filter_cons]
      simp only [hp, Bool.not_true, Bool.false_eq_true, if_false]
      have hrt' : List.filter (fun q => !(q.1 == k)) t = t := hrt
      rw [hrt', List.length_cons]
    | false =>
      have hct : qContains t k = true := by
        have h0 := hc
        simp only [qContains, List.any_cons, hp, Bool.false_or] at h0
        exact h0
      have ihres := ih k (List.nodup_cons.mp hnd').2 hct
      show (List.filter (fun q => !(q.1 == k)) (p :: t)).length + 1 = (p :: t).length
      rw [List.filter_cons]
      simp only [hp, Bool.not_false, if_true, List.length_cons]
      have hconv : (List.filter (fun q => !(q.1 == k)) t).length = (qRemove t k).length := rfl
      rw [hconv]
      omega

theorem length_qInsert_of_contains {κ α : Type} [BEq κ] [LawfulBEq κ]
    (h : List (κ × α)) (k : κ) (v : α)
    (hnd : (qKeys h).Nodup) (hc : qContains h k = true) :
    (qInsert h k v).length = h.length := by
  have := length_qRemove_of_contains h k hnd hc
  simp only [qInsert, List.length_cons]
  omega

theorem qKeys_nodup_qInsert {κ α : Type} [BEq κ] [LawfulBEq κ]
    (h : List (κ × α)) (k : κ) (v : α) (hnd : (qKeys h).Nodup) :
    (qKeys (qInsert h k v)).Nodup := by
  simp only [qInsert, qKeys, List.map_cons]
  refine List.nodup_cons.mpr ⟨?_, ?_⟩
  · intro hmem
    rcases List.mem_map.mp hmem with ⟨p, hp, hpk⟩
    have hfp := List.of_mem_filter hp
    simp only [Bool.not_eq_true'] at hfp
    rw [hpk] at hfp
    simp at hfp
  · have hsub : List.Sublist ((qRemove h k).map (fun p => p.1)) (h.map (fun p => p.1)) :=
      List.Sublist.map (fun p => p.1) (List.filter_sublist h)
    exact hsub.nodup hnd

theorem applyJunctionLoop_preserves (fieldManyToManyDefn : FieldManyToManyDefn)
    (h : List (Int × Value)) :
    ∀ (keys : List Int) (cache : List (Int × Obj)),
    (qKeys cache).Nodup →
    ((qKeys (applyJunctionLoop fieldManyToManyDefn h keys cache)).Nodup ∧
     (applyJunctionLoop fieldManyToManyDefn h keys cache).length = cache.length ∧
     (∀ k : Int, qContains (applyJunctionLoop fieldManyToManyDefn h keys cache) k
        = qContains cache k)) := by
  intro keys
  induction keys with
  | nil =>
    intro cache hnd
    exact ⟨hnd, rfl, fun k => rfl⟩
  | cons currentKey restKeys ih =>
    intro cache hnd
    rw [applyJunctionLoop]
    cases hc : DbRecords.contains cache currentKey with
    | false =>
      simp only [hc, Bool.not_false, if_true]
      exact ih cache hnd
    | true =>
      simp only [hc, Bool.not_true, Bool.false_eq_true, if_false]
      cases hg : DbRecords.getById cache currentKey with
      | none => exact ih cache hnd
      | some currentObject =>
        dsimp only
        have hcq : qContains cache currentKey = true := hc
        obtain ⟨ihnd, ihlen, ihcont⟩ :=
          ih (qInsert cache currentKey
            (if fieldManyToManyDefn.assumeMaxOneEntry = true then
              currentObject.setProperty fieldManyToManyDefn.propertyName
                ((multiHashValues h currentKey).headD Value.null)
            else
              currentObject.setProperty fieldManyToManyDefn.propertyName
                (Value.list (multiHashValues h currentKey))))
            (qKeys_nodup_qInsert _ _ _ hnd)
        refine ⟨ihnd, ?_, ?_⟩
        · rw [ihlen, length_qInsert_of_contains _ _ _ hnd hcq]
        · intro k
          rw [ihcont k, qContains_qInsert]
          cases hq : (k == currentKey) with
          | true =>
            have hk : k = currentKey := eq_of_beq hq
            rw [hk, hcq]
            rfl
          | false => rw [Bool.false_or]

theorem loadJunctionLoop_preserves (env : ExecEnv) (henv : env.execOk = []) (db : DbState) :
    ∀ (defns : List FieldManyToManyDefn) (n : Nat) (cache : List (Int × Obj)),
    (qKeys cache).Nodup →
    ((loadJunctionLoop env db defns n cache).1 = true ∧
     (qKeys (loadJunctionLoop env db defns n cache).2.1).Nodup ∧
     (loadJunctionLoop env db defns n cache).2.1.length = cache.length ∧
     (∀ k : Int, qContains (loadJunctionLoop env db defns n cache).2.1 k
        = qContains cache k)) := by
  intro defns
  induction defns with
  | nil =>
    intro n cache hnd
    exact ⟨rfl, hnd, rfl, fun k => rfl⟩
  | cons defn rest ih =>
    intro n cache hnd
    rw [loadJunctionLoop]
    simp only [execSucceeds_of_nil env henv, Bool.not_true, Bool.false_eq_true, if_false]
    obtain ⟨p1, p2, p3⟩ :=
      applyJunctionLoop_preserves defn
        (buildMultiHash (orderedJunctionRows defn (db.junctionRows defn.tableName)))
        (multiHashUniqueKeys
          (buildMultiHash (orderedJunctionRows defn (db.junctionRows defn.tableName))))
        cache hnd
    obtain ⟨q1, q2, q3, q4⟩ :=
      ih (n + 1)
        (applyJunctionLoop defn
          (buildMultiHash (orderedJunctionRows defn (db.junctionRows defn.tableName)))
          (multiHashUniqueKeys
            (buildMultiHash (orderedJunctionRows defn (db.junctionRows defn.tableName))))
          cache) p1
    refine ⟨q1, q2, ?_, ?_⟩
    · rw [q3, p2]
    · intro k
      rw [q4 k, p3 k]

/-- C2: with every statement succeeding, `loadAll` over an empty cache
produces exactly one cache entry per main-table row — the cache has as
many entries as the table has rows, its keys are pairwise distinct, and
for each row the key equal to the integer value of the row's first
declared column (the conventional primary key) is present — and two rows
yielding the same primary key make `loadAll` fail the
`Q_ASSERT(!allObjects.contains(primaryKey))`, a fatal invariant
violation rather than a silent overwrite. -/
theorem loadAll_one_entry_per_row_keyed_by_primary_key
    (store : DbRecords) (env : ExecEnv) (db : DbState)
    (henv : env.execOk = [])
    (hprops : (store.fieldSimpleDefns.map (fun fd => fd.propertyName)).Nodup)
    (hcols : ∀ row ∈ db.mainTable, ∀ fd ∈ store.fieldSimpleDefns,
        (qLookup row fd.columnName).isSome = true) :
    ((db.mainTable.map (rowPrimaryKey store.fieldSimpleDefns)).Nodup →
      (store.loadAll env db []).assertFailure = none ∧
      (store.loadAll env db []).cache.length = db.mainTable.length ∧
      (qKeys (store.loadAll env db []).cache).Nodup ∧
      (∀ row ∈ db.mainTable,
        DbRecords.contains (store.loadAll env db []).cache
          (rowPrimaryKey store.fieldSimpleDefns row) = true)) ∧
    (¬ (db.mainTable.map (rowPrimaryKey store.fieldSimpleDefns)).Nodup →
      (store.loadAll env db []).assertFailure = some .loadDuplicatePrimaryKey) := by
  have hexec0 : execSucceeds env 0 = true := execSucceeds_of_nil env henv 0
  constructor
  · intro hnodup
    have hrow := loadAllRowLoop_ok store.fieldSimpleDefns hprops db.mainTable []
      hcols (fun row hr => rfl) hnodup
    have hkeys : qKeys ((db.mainTable.map (fun r =>
        (rowPrimaryKey store.fieldSimpleDefns r,
         createNewObject (bundleMap store.fieldSimpleDefns r)))).reverse ++ [])
        = (db.mainTable.map (rowPrimaryKey store.fieldSimpleDefns)).reverse := by
      simp [qKeys, List.map_reverse, List.map_map, Function.comp]
    obtain ⟨j1, j2, j3, j4⟩ :=
      loadJunctionLoop_preserves env henv db store.fieldManyToManyDefns 1
        ((db.mainTable.map (fun r =>
          (rowPrimaryKey store.fieldSimpleDefns r,
           createNewObject (bundleMap store.fieldSimpleDefns r)))).reverse ++ [])
        (by rw [hkeys]; exact (List.nodup_reverse).mpr hnodup)
    unfold DbRecords.loadAll
    rw [hexec0]
    simp only [Bool.not_true, Bool.false_eq_true, if_false]
    rw [hrow]
    dsimp only
    rw [j1]
    simp only [Bool.not_true, Bool.false_eq_true, if_false]
    refine ⟨by trivial, ?_, ?_, ?_⟩
    · show ((loadJunctionLoop env db store.fieldManyToManyDefns 1
          ((db.mainTable.map (fun r =>
            (rowPrimaryKey store.fieldSimpleDefns r,
             createNewObject (bundleMap store.fieldSimpleDefns r)))).reverse ++ [])).2.1).length
        = db.mainTable.length
      rw [j3]
      simp
    · exact j2
    · intro row hrmem
      show qContains ((loadJunctionLoop env db store.fieldManyToManyDefns 1
          ((db.mainTable.map (fun r =>
            (rowPrimaryKey store.fieldSimpleDefns r,
             createNewObject (bundleMap store.fieldSimpleDefns r)))).reverse ++ [])).2.1)
          (rowPrimaryKey store.fieldSimpleDefns row) = true
      rw [j4]
      rw [qContains_iff_mem_qKeys, hkeys]
      rw [List.mem_reverse]
      exact List.mem_map_of_mem (rowPrimaryKey store.fieldSimpleDefns) hrmem
  · intro hnodup
    have hrow := loadAllRowLoop_dup store.fieldSimpleDefns hprops db.mainTable []
      hcols (fun row hr => rfl) hnodup
    unfold DbRecords.loadAll
    rw [hexec0]
    simp only [Bool.not_true, Bool.false_eq_true, if_false]
    rw [hrow]

/-- Witness for C2 over two rows (ids 1 and 2) of a two-column table. -/
theorem loadAll_one_entry_per_row_witness :
    (exampleStore.loadAll allOkEnv
        ⟨[[("id", Value.int 1), ("name", Value.str "a")],
          [("id", Value.int 2), ("name", Value.str "b")]], [], 3⟩ []).assertFailure = none ∧
    (exampleStore.loadAll allOkEnv
        ⟨[[("id", Value.int 1), ("name", Value.str "a")],
          [("id", Value.int 2), ("name", Value.str "b")]], [], 3⟩ []).cache.length = 2 ∧
    DbRecords.contains (exampleStore.loadAll allOkEnv
        ⟨[[("id", Value.int 1), ("name", Value.str "a")],
          [("id", Value.int 2), ("name", Value.str "b")]], [], 3⟩ []).cache
      (rowPrimaryKey exampleStore.fieldSimpleDefns
        [("id", Value.int 1), ("name", Value.str "a")]) = true := by
  have h := (loadAll_one_entry_per_row_keyed_by_primary_key exampleStore allOkEnv
    ⟨[[("id", Value.int 1), ("name", Value.str "a")],
      [("id", Value.int 2), ("name", Value.str "b")]], [], 3⟩
    (by rfl) (by decide) (by simp [exampleStore, List.forall_mem_cons, qLookup, List.find?])).1 (by decide)
  exact ⟨h.1, h.2.1, h.2.2.2 [("id", Value.int 1), ("name", Value.str "a")] (by simp)⟩

end Brewken
